import Mathlib

/-!
# aquagram: update acquisition (`updaters.go`)

A shallow embedding of `PollingUpdater.Start`, `Bot.GetUpdates` and
`WebhookUpdater.Handler`, and the properties of the acquisition engine proved
over it.

The remote side is an input: every `GetUpdates` call consumes one `RawReply`
(what `bot.Raw` returned and what `json.Unmarshal` made of it), and every
webhook request carries what the JSON decoder makes of its body.  Effects are
recorded in the state: the calls issued, the `go bot.DispatchUpdate(update)`
launches, and the lines handed to `Bot.Logger.Println`.
-/

namespace Aquagram

/-! ## Machine integers and durations -/

/-- Width of the Go type `int` (64-bit targets). -/
def intBits : Nat := 64

/-- Largest value of the Go type `int`. -/
def maxInt : Int := 2 ^ (intBits - 1) - 1

/-- Smallest value of the Go type `int`. -/
def minInt : Int := -(2 ^ (intBits - 1))

/-- Two-complement wrap-around of a mathematical integer into the range of `int`. -/
def wrapInt (x : Int) : Int := (x + 2 ^ (intBits - 1)) % 2 ^ intBits - 2 ^ (intBits - 1)

/-- Go `a + b` on `int`. -/
def goAdd (a b : Int) : Int := wrapInt (a + b)

/-- The constant `time.Second`, in nanoseconds (a `time.Duration` counts nanoseconds). -/
def Second : Int := 1000000000

/-- Rounding of a rational to the nearest integer, ties to even. -/
def roundHalfEven (q : ℚ) : Int :=
  let f : Int := ⌊q⌋
  let r : ℚ := q - f
  if r < 1 / 2 then f
  else if 1 / 2 < r then f + 1
  else if f % 2 = 0 then f else f + 1

/-- IEEE-754 binary64 rounding (round to nearest, ties to even) of a real value, on the
normal range: 53 significant bits.  A finite `float64` is represented by its exact rational
value. -/
def roundF64 (q : ℚ) : ℚ :=
  if q = 0 then 0
  else
    let e : Int := Int.log 2 |q|
    let ulp : ℚ := (2 : ℚ) ^ (e - 52)
    (roundHalfEven (q / ulp) : ℚ) * ulp

/-- Go `float64(n)` for an integer `n`. -/
def float64OfInt (n : Int) : ℚ := roundF64 (n : ℚ)

/-- Go `int64(x)` for a `float64` value `x` in range: the fraction is discarded. -/
def int64OfFloat (x : ℚ) : Int := if 0 ≤ x then ⌊x⌋ else ⌈x⌉

/-- The method `time.Duration.Seconds`:
`sec := d / Second; nsec := d % Second; return float64(sec) + float64(nsec)/1e9`
(Go integer division and remainder truncate toward zero). -/
def Seconds (d : Int) : ℚ :=
  let sec := Int.tdiv d Second
  let nsec := Int.tmod d Second
  roundF64 (float64OfInt sec + roundF64 (float64OfInt nsec / 1000000000))

/-! ## Data model -/

/-- Modelled from the spec: the type `Update` is declared outside `updaters.go`; the spec
gives it an integer `UpdateID` and a payload that this code forwards untouched. -/
structure Update where
  UpdateID : Int
  Payload : String
deriving DecidableEq, Repr

/-- Go error values, as far as `errors.Is(err, context.Canceled)` can tell them apart:
the sentinel `context.Canceled`, any other leaf error, or an error wrapping another. -/
inductive GoError where
  | contextCanceled : GoError
  | leaf (msg : String) : GoError
  | wrap (msg : String) (inner : GoError) : GoError
deriving DecidableEq, Repr

/-- The test `errors.Is(err, context.Canceled)`: the sentinel occurs in the chain of `err`. -/
def errorsIsCanceled : GoError → Bool
  | GoError.contextCanceled => true
  | GoError.leaf _ => false
  | GoError.wrap _ inner => errorsIsCanceled inner

/-- A line handed to `Bot.Logger.Println`. -/
inductive LogLine where
  /-- The line `fmt.Errorf("%w: %w", ErrUpdaterError, err)`. -/
  | updaterError (err : GoError) : LogLine
  /-- The line `"bot manually stopped"`. -/
  | manuallyStopped : LogLine
deriving DecidableEq, Repr

/-- The struct `PollingOptions`; `Timeout` is a `time.Duration` in nanoseconds. -/
structure PollingOptions where
  Offset : Int
  Limit : Int
  Timeout : Int
  TimeoutRaw : Int
  AllowedUpdates : List String
  DropPendingUpdates : Bool
deriving DecidableEq, Repr

/-- The zero value `new(PollingOptions)`. -/
def PollingOptions.zero : PollingOptions :=
  { Offset := 0, Limit := 0, Timeout := 0, TimeoutRaw := 0, AllowedUpdates := [],
    DropPendingUpdates := false }

/-- What the remote side answers to one `bot.Raw(ctx, "getUpdates", params)` call: a
transport error, or a body together with the result of `json.Unmarshal(data, updates)`
on it (the decoded `updates.Result`, or the decoding error).  The elements of the decoded
slice `[]*Update` are taken to be non-nil pointers. -/
inductive RawReply where
  | failed (err : GoError) : RawReply
  | body (decoded : Except GoError (List Update)) : RawReply

/-- The method `Bot.GetUpdates`: stores `int64(params.Timeout.Seconds())` in
`params.TimeoutRaw`, performs the raw call and decodes its body.  Returns the parameters
as mutated (and as sent) together with the Go result pair. -/
def GetUpdates (params : PollingOptions) (reply : RawReply) :
    PollingOptions × Except GoError (List Update) :=
  let params1 := { params with TimeoutRaw := int64OfFloat (Seconds params.Timeout) }
  match reply with
  | RawReply.failed err => (params1, Except.error err)
  | RawReply.body (Except.error err) => (params1, Except.error err)
  | RawReply.body (Except.ok result) => (params1, Except.ok result)

/-- Call site of a `GetUpdates` call inside `PollingUpdater.Start`. -/
inductive CallSite where
  /-- The call of line 52, made when `DropPendingUpdates` is set. -/
  | priming : CallSite
  /-- The call of line 65, first statement of the `for` loop. -/
  | mainLoop : CallSite
deriving DecidableEq, Repr

/-- One `GetUpdates` call as issued: where, and with which parameters on the wire. -/
structure Call where
  site : CallSite
  params : PollingOptions
deriving DecidableEq, Repr

/-- Where the control of `PollingUpdater.Start` stands between two `GetUpdates` calls. -/
inductive Phase where
  /-- About to issue the priming call (line 52). -/
  | priming : Phase
  /-- About to issue the call at the head of the `for` loop (line 65). -/
  | polling : Phase
  /-- The loop was left by `break`: `Start` has returned. -/
  | returned : Phase
deriving DecidableEq, Repr

/-- The struct `PollingUpdater` as configured by the caller; `Options` may be `nil`. -/
structure PollingUpdater where
  Options : Option PollingOptions

/-- State of a running `PollingUpdater.Start`: the options it owns, its control point, and
the effects so far in order (calls issued, dispatch goroutines launched, lines logged, and
every value `Options.Offset` has held, oldest first). -/
structure Poller where
  Options : PollingOptions
  phase : Phase
  calls : List Call
  launched : List Update
  log : List LogLine
  offsets : List Int
deriving DecidableEq, Repr

/-- Lines 38-46 of `Start`: a `nil` `Options` becomes the zero value, a `Timeout` whose
`Seconds()` is `0` becomes `10 * time.Second`, and control goes to the priming call when
`DropPendingUpdates` is set, to the loop otherwise. -/
def Poller.init (updater : PollingUpdater) : Poller :=
  let opts0 := match updater.Options with
    | none => PollingOptions.zero
    | some o => o
  let opts1 := if Seconds opts0.Timeout = 0 then { opts0 with Timeout := 10 * Second } else opts0
  { Options := opts1,
    phase := if opts1.DropPendingUpdates then Phase.priming else Phase.polling,
    calls := [], launched := [], log := [], offsets := [opts1.Offset] }

/-- Body of the inner loop, lines 76-79: for each update of the batch in slice order,
`Options.Offset = update.UpdateID + 1` and `go DispatchUpdate(update)`. -/
def Poller.rangeUpdates (st : Poller) : List Update → Poller
  | [] => st
  | update :: rest =>
    let offset := goAdd update.UpdateID 1
    Poller.rangeUpdates
      { st with Options := { st.Options with Offset := offset },
                offsets := st.offsets ++ [offset],
                launched := st.launched ++ [update] } rest

/-- The literal `&PollingOptions{Offset: -1, Limit: 1}` of lines 47-50. -/
def primingParams : PollingOptions :=
  { PollingOptions.zero with Offset := -1, Limit := 1 }

/-- Lines 47-61: the priming call with `&PollingOptions{Offset: -1, Limit: 1}` and what
follows its reply, up to the head of the loop. -/
def Poller.primingStep (st : Poller) (reply : RawReply) : Poller :=
  let got := GetUpdates primingParams reply
  let st1 := { st with calls := st.calls ++ [{ site := CallSite.priming, params := got.1 }],
                       phase := Phase.polling }
  match got.2 with
  | Except.error err => { st1 with log := st1.log ++ [LogLine.updaterError err] }
  | Except.ok updates =>
    match updates with
    | [] => st1
    | lastUpdate :: _ =>
      let offset := goAdd lastUpdate.UpdateID 1
      { st1 with Options := { st1.Options with Offset := offset },
                 offsets := st1.offsets ++ [offset] }

/-- Lines 65-79: one iteration of the `for` loop, from its `GetUpdates` call to the next
loop head or to the `break`. -/
def Poller.pollingStep (st : Poller) (reply : RawReply) : Poller :=
  let got := GetUpdates st.Options reply
  let st1 := { st with Options := got.1,
                       calls := st.calls ++ [{ site := CallSite.mainLoop, params := got.1 }] }
  match got.2 with
  | Except.error err =>
    if errorsIsCanceled err then
      { st1 with log := st1.log ++ [LogLine.manuallyStopped], phase := Phase.returned }
    else
      { st1 with log := st1.log ++ [LogLine.updaterError err] }
  | Except.ok updates => Poller.rangeUpdates st1 updates

/-- One `GetUpdates` call of `Start` and everything up to the next one.  Once `Start` has
returned nothing happens any more: no call is issued and the reply is not consumed. -/
def Poller.step (st : Poller) (reply : RawReply) : Poller :=
  match st.phase with
  | Phase.priming => Poller.primingStep st reply
  | Phase.polling => Poller.pollingStep st reply
  | Phase.returned => st

/-- The method `PollingUpdater.Start`, run against the replies the remote side gives to
its successive `GetUpdates` calls. -/
def Start (updater : PollingUpdater) (replies : List RawReply) : Poller :=
  replies.foldl Poller.step (Poller.init updater)

/-- The loop of `Start` alone, entered with the given options. -/
def mainLoop (opts : PollingOptions) (replies : List RawReply) : Poller :=
  replies.foldl Poller.step
    { Options := opts, phase := Phase.polling, calls := [], launched := [], log := [],
      offsets := [opts.Offset] }

/-! ## Webhook -/

/-- Modelled from the spec: the constant `EmptyString` is declared outside `updaters.go`;
the spec says that the empty string disables the secret check. -/
def EmptyString : String := ""

/-- Modelled from the spec: the struct `Bot` is declared outside `updaters.go`.  Of it the
webhook handler reads the watermark `LastUpdateID`, prints to `Logger` and launches
`DispatchUpdate`; the lines printed and the goroutines launched are kept in order. -/
structure Bot where
  LastUpdateID : Int
  Logger : List LogLine
  launched : List Update
deriving DecidableEq, Repr

/-- The struct `WebhookUpdater`. -/
structure WebhookUpdater where
  Bot : Bot
  secretToken : String
deriving DecidableEq, Repr

/-- An inbound `*http.Request`, as far as `Handler` looks at it: the values of the header
`X-Telegram-Bot-Api-Secret-Token` in order (none when the header is absent), and what
`json.NewDecoder(r.Body).Decode(update)` yields for the body. -/
structure Request where
  SecretTokenHeader : List String
  Body : Except GoError Update

/-- The call `r.Header.Get(key)`: the first value of the header, `""` when there is none. -/
def headerGet (values : List String) : String := values.headD ""

/-- The method `WebhookUpdater.Handler`, lines 119-141.  The first test is the nested pair
of `if`s of lines 120-126: the request is abandoned when a secret is configured and the
header value differs from it. -/
def Handler (updater : WebhookUpdater) (r : Request) : WebhookUpdater :=
  if updater.secretToken ≠ EmptyString ∧ headerGet r.SecretTokenHeader ≠ updater.secretToken then
    updater
  else
    match r.Body with
    | Except.error err =>
      { updater with
        Bot := { updater.Bot with Logger := updater.Bot.Logger ++ [LogLine.updaterError err] } }
    | Except.ok update =>
      if update.UpdateID ≤ updater.Bot.LastUpdateID then updater
      else
        { updater with
          Bot := { updater.Bot with launched := updater.Bot.launched ++ [update] } }

/-! ## Notions used to state the properties -/

/-- The Go result pair that `GetUpdates` returns for a reply (the same for all parameters). -/
def RawReply.result : RawReply → Except GoError (List Update)
  | RawReply.failed err => Except.error err
  | RawReply.body decoded => decoded

/-- The batches returned by the successful `GetUpdates` calls of the loop, in fetch order,
when the loop receives the given replies: a failed call contributes nothing, and the first
call that fails with `context.Canceled` is the last call made. -/
def fetchedBatches : List RawReply → List (List Update)
  | [] => []
  | reply :: rest =>
    match reply.result with
    | Except.ok updates => updates :: fetchedBatches rest
    | Except.error err => if errorsIsCanceled err then [] else fetchedBatches rest

/-- The replies that go to the loop in a run of `Start`: all of them, but the first when a
priming call is made. -/
def mainLoopReplies (updater : PollingUpdater) (replies : List RawReply) : List RawReply :=
  if (Poller.init updater).Options.DropPendingUpdates then replies.tail else replies

/-- The value is one of the Go type `int64`, the type under `time.Duration`. -/
def IsInt64 (x : Int) : Prop := -(2 ^ 63) ≤ x ∧ x < 2 ^ 63

/-- The configured `Timeout` of an updater (`0` when `Options` is `nil`). -/
def configuredTimeout (updater : PollingUpdater) : Int :=
  match updater.Options with
  | none => 0
  | some o => o.Timeout

/-- The updates whose identifier `Start` stores into `Options.Offset`, in the order in
which it does so: the first update of a successful priming result, then every update of
every batch fetched by the loop. -/
def offsetSources (updater : PollingUpdater) (replies : List RawReply) : List Update :=
  if (Poller.init updater).Options.DropPendingUpdates then
    match replies with
    | [] => []
    | reply :: rest =>
      (match reply.result with
        | Except.ok (lastUpdate :: _) => [lastUpdate]
        | _ => []) ++ (fetchedBatches rest).flatten
  else (fetchedBatches replies).flatten

/-! ## Webhook: lemmas -/

theorem Handler_rejected (updater : WebhookUpdater) (r : Request)
    (hset : updater.secretToken ≠ EmptyString)
    (hne : headerGet r.SecretTokenHeader ≠ updater.secretToken) :
    Handler updater r = updater := by
  unfold Handler
  rw [if_pos ⟨hset, hne⟩]

theorem Handler_admitted (updater : WebhookUpdater) (r : Request)
    (hsecret : updater.secretToken = EmptyString ∨
      headerGet r.SecretTokenHeader = updater.secretToken) :
    Handler updater r =
      match r.Body with
      | Except.error err =>
        { updater with
          Bot := { updater.Bot with Logger := updater.Bot.Logger ++ [LogLine.updaterError err] } }
      | Except.ok update =>
        if update.UpdateID ≤ updater.Bot.LastUpdateID then updater
        else
          { updater with
            Bot := { updater.Bot with launched := updater.Bot.launched ++ [update] } } := by
  unfold Handler
  rw [if_neg]
  rintro ⟨hset, hne⟩
  rcases hsecret with h | h
  · exact hset h
  · exact hne h

theorem Handler_accepts (updater : WebhookUpdater) (r : Request) (update : Update)
    (hsecret : updater.secretToken = EmptyString ∨
      headerGet r.SecretTokenHeader = updater.secretToken)
    (hbody : r.Body = Except.ok update)
    (habove : updater.Bot.LastUpdateID < update.UpdateID) :
    Handler updater r =
      { updater with
        Bot := { updater.Bot with launched := updater.Bot.launched ++ [update] } } := by
  rw [Handler_admitted updater r hsecret, hbody]
  simp only
  rw [if_neg (not_le.mpr habove)]

theorem Handler_drops (updater : WebhookUpdater) (r : Request) (update : Update)
    (hbody : r.Body = Except.ok update)
    (hbelow : update.UpdateID ≤ updater.Bot.LastUpdateID) :
    Handler updater r = updater := by
  by_cases hsecret : updater.secretToken = EmptyString ∨
      headerGet r.SecretTokenHeader = updater.secretToken
  · rw [Handler_admitted updater r hsecret, hbody]
    simp only
    rw [if_pos hbelow]
  · rw [not_or] at hsecret
    exact Handler_rejected updater r hsecret.1 hsecret.2

/-- C7.  A request that passes the secret check (no secret configured, or the header equals
it) and whose body decodes to an update launches `DispatchUpdate` exactly once, for that
update, when its `UpdateID` is above `Bot.LastUpdateID`, and launches nothing when its
`UpdateID` is at most `Bot.LastUpdateID`. -/
theorem Handler_dispatches_iff_above_watermark (updater : WebhookUpdater) (r : Request)
    (update : Update)
    (hsecret : updater.secretToken = EmptyString ∨
      headerGet r.SecretTokenHeader = updater.secretToken)
    (hbody : r.Body = Except.ok update) :
    (updater.Bot.LastUpdateID < update.UpdateID →
      (Handler updater r).Bot.launched = updater.Bot.launched ++ [update]) ∧
    (update.UpdateID ≤ updater.Bot.LastUpdateID →
      (Handler updater r).Bot.launched = updater.Bot.launched) := by
  constructor
  · intro habove
    rw [Handler_accepts updater r update hsecret hbody habove]
  · intro hbelow
    rw [Handler_drops updater r update hbody hbelow]

/-- Witness for C7: with the watermark at 10 and the secret `"abc"` presented, the updates
10 and 5 are dropped and the update 11 is dispatched once. -/
theorem Handler_dispatches_iff_above_watermark_witness :
    (Handler ⟨⟨10, [], []⟩, "abc"⟩ ⟨["abc"], Except.ok ⟨11, "hi"⟩⟩).Bot.launched
        = [] ++ [⟨11, "hi"⟩] ∧
    (Handler ⟨⟨10, [], []⟩, "abc"⟩ ⟨["abc"], Except.ok ⟨10, "hi"⟩⟩).Bot.launched = [] ∧
    (Handler ⟨⟨10, [], []⟩, "abc"⟩ ⟨["abc"], Except.ok ⟨5, "hi"⟩⟩).Bot.launched = [] :=
  ⟨(Handler_dispatches_iff_above_watermark ⟨⟨10, [], []⟩, "abc"⟩
      ⟨["abc"], Except.ok ⟨11, "hi"⟩⟩ ⟨11, "hi"⟩ (Or.inr (by decide)) rfl).1 (by decide),
   (Handler_dispatches_iff_above_watermark ⟨⟨10, [], []⟩, "abc"⟩
      ⟨["abc"], Except.ok ⟨10, "hi"⟩⟩ ⟨10, "hi"⟩ (Or.inr (by decide)) rfl).2 (by decide),
   (Handler_dispatches_iff_above_watermark ⟨⟨10, [], []⟩, "abc"⟩
      ⟨["abc"], Except.ok ⟨5, "hi"⟩⟩ ⟨5, "hi"⟩ (Or.inr (by decide)) rfl).2 (by decide)⟩

theorem Handler_header_ignored (updater : WebhookUpdater) (r : Request) (values : List String)
    (hunset : updater.secretToken = EmptyString) :
    Handler updater { r with SecretTokenHeader := values } = Handler updater r := by
  rw [Handler_admitted updater r (Or.inl hunset),
    Handler_admitted updater { r with SecretTokenHeader := values } (Or.inl hunset)]

theorem headerGet_absent_ne (secret : String) (hset : secret ≠ EmptyString) :
    headerGet [] ≠ secret := by
  intro h
  apply hset
  rw [← h]
  rfl

/-- C9, counterexample to the claim as worded.  The secret `"abc"` is configured, the header
equals it and the body is a valid update, yet nothing is dispatched: the update carries
identifier 5 and the watermark is 10. -/
theorem Handler_matching_secret_stale_update :
    (⟨⟨10, [], []⟩, "abc"⟩ : WebhookUpdater).secretToken ≠ EmptyString ∧
    headerGet (⟨["abc"], Except.ok ⟨5, "hi"⟩⟩ : Request).SecretTokenHeader = "abc" ∧
    (Handler ⟨⟨10, [], []⟩, "abc"⟩ ⟨["abc"], Except.ok ⟨5, "hi"⟩⟩).Bot.launched = [] := by
  decide

/-- C9, amended.  The secret check applies exactly when the configured secret is not the
empty string: with a secret configured, a request whose header differs from it, or is
absent, changes nothing (no dispatch, no log line); a request whose header equals the
secret and whose body is a valid update with `UpdateID` above `Bot.LastUpdateID` launches
exactly one dispatch, of that update, and logs nothing; with no secret configured the
header plays no role. -/
theorem Handler_secret_check (updater : WebhookUpdater) (r : Request) :
    (updater.secretToken ≠ EmptyString →
      headerGet r.SecretTokenHeader ≠ updater.secretToken → Handler updater r = updater) ∧
    (updater.secretToken ≠ EmptyString →
      r.SecretTokenHeader = [] → Handler updater r = updater) ∧
    (∀ update : Update, headerGet r.SecretTokenHeader = updater.secretToken →
      r.Body = Except.ok update → updater.Bot.LastUpdateID < update.UpdateID →
      (Handler updater r).Bot.launched = updater.Bot.launched ++ [update] ∧
      (Handler updater r).Bot.Logger = updater.Bot.Logger) ∧
    (updater.secretToken = EmptyString → ∀ values : List String,
      Handler updater { r with SecretTokenHeader := values } = Handler updater r) := by
  refine ⟨Handler_rejected updater r, ?_, ?_, ?_⟩
  · intro hset habsent
    apply Handler_rejected updater r hset
    rw [habsent]
    exact headerGet_absent_ne _ hset
  · intro update hhdr hbody habove
    rw [Handler_accepts updater r update (Or.inr hhdr) hbody habove]
    exact ⟨rfl, rfl⟩
  · intro hunset values
    exact Handler_header_ignored updater r values hunset

/-- Witness for C9: secret `"abc"`; the header `"wrong"` or no header gives no dispatch and
no log line, the header `"abc"` with a fresh valid update gives one dispatch. -/
theorem Handler_secret_check_witness :
    Handler ⟨⟨10, [], []⟩, "abc"⟩ ⟨["wrong"], Except.ok ⟨11, "hi"⟩⟩ = ⟨⟨10, [], []⟩, "abc"⟩ ∧
    Handler ⟨⟨10, [], []⟩, "abc"⟩ ⟨[], Except.ok ⟨11, "hi"⟩⟩ = ⟨⟨10, [], []⟩, "abc"⟩ ∧
    ((Handler ⟨⟨10, [], []⟩, "abc"⟩ ⟨["abc"], Except.ok ⟨11, "hi"⟩⟩).Bot.launched
        = [] ++ [⟨11, "hi"⟩] ∧
     (Handler ⟨⟨10, [], []⟩, "abc"⟩ ⟨["abc"], Except.ok ⟨11, "hi"⟩⟩).Bot.Logger = []) ∧
    Handler ⟨⟨10, [], []⟩, ""⟩ ⟨["abc"], Except.ok ⟨11, "hi"⟩⟩
      = Handler ⟨⟨10, [], []⟩, ""⟩ ⟨["wrong"], Except.ok ⟨11, "hi"⟩⟩ :=
  ⟨(Handler_secret_check ⟨⟨10, [], []⟩, "abc"⟩ ⟨["wrong"], Except.ok ⟨11, "hi"⟩⟩).1
      (by decide) (by decide),
   (Handler_secret_check ⟨⟨10, [], []⟩, "abc"⟩ ⟨[], Except.ok ⟨11, "hi"⟩⟩).2.1
      (by decide) rfl,
   (Handler_secret_check ⟨⟨10, [], []⟩, "abc"⟩ ⟨["abc"], Except.ok ⟨11, "hi"⟩⟩).2.2.1
      ⟨11, "hi"⟩ (by decide) rfl (by decide),
   (Handler_secret_check ⟨⟨10, [], []⟩, ""⟩ ⟨["wrong"], Except.ok ⟨11, "hi"⟩⟩).2.2.2
      (by decide) ["abc"]⟩

/-- The handler never writes the watermark: whatever the request, `Bot.LastUpdateID` is
after `Handler` what it was before. -/
theorem Handler_LastUpdateID (updater : WebhookUpdater) (r : Request) :
    (Handler updater r).Bot.LastUpdateID = updater.Bot.LastUpdateID := by
  unfold Handler
  split
  · rfl
  · split
    · rfl
    · split <;> rfl

/-- An accepted update delivered a second time, before anything else has touched the bot,
is accepted a second time. -/
theorem Handler_accepts_twice (updater : WebhookUpdater) (r : Request) (update : Update)
    (hsecret : updater.secretToken = EmptyString ∨
      headerGet r.SecretTokenHeader = updater.secretToken)
    (hbody : r.Body = Except.ok update)
    (habove : updater.Bot.LastUpdateID < update.UpdateID) :
    (Handler (Handler updater r) r).Bot.launched = updater.Bot.launched ++ [update, update] := by
  have hfirst := Handler_accepts updater r update hsecret hbody habove
  have hsecret2 : (Handler updater r).secretToken = EmptyString ∨
      headerGet r.SecretTokenHeader = (Handler updater r).secretToken := by
    rw [hfirst]
    exact hsecret
  have habove2 : (Handler updater r).Bot.LastUpdateID < update.UpdateID := by
    rw [Handler_LastUpdateID]
    exact habove
  rw [Handler_accepts (Handler updater r) r update hsecret2 hbody habove2, hfirst]
  simp

/-- C8, the code at the failing input.  Watermark 10, secret `"abc"` presented, update 11
delivered: `Handler` launches its dispatch and returns with `Bot.LastUpdateID` still 10,
not 11; the same request delivered again is accepted again, so that update 11 is launched
twice and the watermark is still 10. -/
theorem Handler_leaves_watermark_and_redispatches :
    (Handler ⟨⟨10, [], []⟩, "abc"⟩ ⟨["abc"], Except.ok ⟨11, "hi"⟩⟩).Bot.launched
      = [⟨11, "hi"⟩] ∧
    (Handler ⟨⟨10, [], []⟩, "abc"⟩ ⟨["abc"], Except.ok ⟨11, "hi"⟩⟩).Bot.LastUpdateID = 10 ∧
    (Handler (Handler ⟨⟨10, [], []⟩, "abc"⟩ ⟨["abc"], Except.ok ⟨11, "hi"⟩⟩)
      ⟨["abc"], Except.ok ⟨11, "hi"⟩⟩).Bot.launched = [⟨11, "hi"⟩, ⟨11, "hi"⟩] ∧
    (Handler (Handler ⟨⟨10, [], []⟩, "abc"⟩ ⟨["abc"], Except.ok ⟨11, "hi"⟩⟩)
      ⟨["abc"], Except.ok ⟨11, "hi"⟩⟩).Bot.LastUpdateID = 10 := by
  decide

/-! ## Polling: lemmas -/

theorem GetUpdates_snd (params : PollingOptions) (reply : RawReply) :
    (GetUpdates params reply).2 = reply.result := by
  unfold GetUpdates RawReply.result
  rcases reply with err | (err | result) <;> rfl

theorem GetUpdates_fst (params : PollingOptions) (reply : RawReply) :
    (GetUpdates params reply).1 =
      { params with TimeoutRaw := int64OfFloat (Seconds params.Timeout) } := by
  unfold GetUpdates
  rcases reply with err | (err | result) <;> rfl

theorem rangeUpdates_phase (updates : List Update) (st : Poller) :
    (Poller.rangeUpdates st updates).phase = st.phase := by
  induction updates generalizing st with
  | nil => rfl
  | cons u rest ih => simp only [Poller.rangeUpdates]; rw [ih]

theorem rangeUpdates_calls (updates : List Update) (st : Poller) :
    (Poller.rangeUpdates st updates).calls = st.calls := by
  induction updates generalizing st with
  | nil => rfl
  | cons u rest ih => simp only [Poller.rangeUpdates]; rw [ih]

theorem rangeUpdates_log (updates : List Update) (st : Poller) :
    (Poller.rangeUpdates st updates).log = st.log := by
  induction updates generalizing st with
  | nil => rfl
  | cons u rest ih => simp only [Poller.rangeUpdates]; rw [ih]

theorem rangeUpdates_launched (updates : List Update) (st : Poller) :
    (Poller.rangeUpdates st updates).launched = st.launched ++ updates := by
  induction updates generalizing st with
  | nil => simp [Poller.rangeUpdates]
  | cons u rest ih => simp only [Poller.rangeUpdates]; rw [ih]; simp

theorem rangeUpdates_offsets (updates : List Update) (st : Poller) :
    (Poller.rangeUpdates st updates).offsets =
      st.offsets ++ updates.map (fun u => goAdd u.UpdateID 1) := by
  induction updates generalizing st with
  | nil => simp [Poller.rangeUpdates]
  | cons u rest ih => simp only [Poller.rangeUpdates]; rw [ih]; simp

theorem rangeUpdates_options (updates : List Update) (st : Poller) :
    (Poller.rangeUpdates st updates).Options =
      { st.Options with
        Offset := match updates.getLast? with
          | none => st.Options.Offset
          | some u => goAdd u.UpdateID 1 } := by
  induction updates generalizing st with
  | nil => simp [Poller.rangeUpdates]
  | cons u rest ih =>
    simp only [Poller.rangeUpdates]
    rw [ih]
    cases rest with
    | nil => simp
    | cons v more =>
      obtain ⟨w, hw⟩ : ∃ w, (v :: more).getLast? = some w :=
        ⟨_, List.getLast?_eq_getLast _ (List.cons_ne_nil v more)⟩
      rw [List.getLast?_cons_cons, hw]

theorem pollingStep_ok (st : Poller) (reply : RawReply) (updates : List Update)
    (hres : reply.result = Except.ok updates) :
    Poller.pollingStep st reply =
      Poller.rangeUpdates
        { st with Options := (GetUpdates st.Options reply).1,
                  calls := st.calls ++
                    [{ site := CallSite.mainLoop, params := (GetUpdates st.Options reply).1 }] }
        updates := by
  unfold Poller.pollingStep
  simp only [GetUpdates_snd, hres]

theorem pollingStep_error (st : Poller) (reply : RawReply) (err : GoError)
    (hres : reply.result = Except.error err) :
    Poller.pollingStep st reply =
      if errorsIsCanceled err then
        { st with Options := (GetUpdates st.Options reply).1,
                  calls := st.calls ++
                    [{ site := CallSite.mainLoop, params := (GetUpdates st.Options reply).1 }],
                  log := st.log ++ [LogLine.manuallyStopped],
                  phase := Phase.returned }
      else
        { st with Options := (GetUpdates st.Options reply).1,
                  calls := st.calls ++
                    [{ site := CallSite.mainLoop, params := (GetUpdates st.Options reply).1 }],
                  log := st.log ++ [LogLine.updaterError err] } := by
  unfold Poller.pollingStep
  simp only [GetUpdates_snd, hres]

theorem primingStep_error (st : Poller) (reply : RawReply) (err : GoError)
    (hres : reply.result = Except.error err) :
    Poller.primingStep st reply =
      { st with calls := st.calls ++
                  [{ site := CallSite.priming, params := (GetUpdates primingParams reply).1 }],
                phase := Phase.polling,
                log := st.log ++ [LogLine.updaterError err] } := by
  unfold Poller.primingStep
  simp only [GetUpdates_snd, hres]

theorem primingStep_ok_nil (st : Poller) (reply : RawReply)
    (hres : reply.result = Except.ok []) :
    Poller.primingStep st reply =
      { st with calls := st.calls ++
                  [{ site := CallSite.priming, params := (GetUpdates primingParams reply).1 }],
                phase := Phase.polling } := by
  unfold Poller.primingStep
  simp only [GetUpdates_snd, hres]

theorem primingStep_ok_cons (st : Poller) (reply : RawReply) (lastUpdate : Update)
    (more : List Update) (hres : reply.result = Except.ok (lastUpdate :: more)) :
    Poller.primingStep st reply =
      { st with calls := st.calls ++
                  [{ site := CallSite.priming, params := (GetUpdates primingParams reply).1 }],
                phase := Phase.polling,
                Options := { st.Options with Offset := goAdd lastUpdate.UpdateID 1 },
                offsets := st.offsets ++ [goAdd lastUpdate.UpdateID 1] } := by
  unfold Poller.primingStep
  simp only [GetUpdates_snd, hres]

theorem GetUpdates_fst_Offset (params : PollingOptions) (reply : RawReply) :
    (GetUpdates params reply).1.Offset = params.Offset := by
  rw [GetUpdates_fst]

theorem GetUpdates_fst_Timeout (params : PollingOptions) (reply : RawReply) :
    (GetUpdates params reply).1.Timeout = params.Timeout := by
  rw [GetUpdates_fst]

theorem GetUpdates_fst_TimeoutRaw (params : PollingOptions) (reply : RawReply) :
    (GetUpdates params reply).1.TimeoutRaw = int64OfFloat (Seconds params.Timeout) := by
  rw [GetUpdates_fst]

theorem step_returned (st : Poller) (reply : RawReply) (hph : st.phase = Phase.returned) :
    Poller.step st reply = st := by
  unfold Poller.step
  rw [hph]

theorem step_polling (st : Poller) (reply : RawReply) (hph : st.phase = Phase.polling) :
    Poller.step st reply = Poller.pollingStep st reply := by
  unfold Poller.step
  rw [hph]

theorem step_priming (st : Poller) (reply : RawReply) (hph : st.phase = Phase.priming) :
    Poller.step st reply = Poller.primingStep st reply := by
  unfold Poller.step
  rw [hph]

theorem foldl_step_returned (replies : List RawReply) (st : Poller)
    (hph : st.phase = Phase.returned) : replies.foldl Poller.step st = st := by
  induction replies with
  | nil => rfl
  | cons r rest ih => rw [List.foldl_cons, step_returned st r hph, ih]

/-- What the loop has done after consuming a list of replies, in terms of the batches it
fetched. -/
theorem foldl_step_polling (replies : List RawReply) (st : Poller)
    (hph : st.phase = Phase.polling) :
    (replies.foldl Poller.step st).launched = st.launched ++ (fetchedBatches replies).flatten ∧
    (replies.foldl Poller.step st).offsets =
      st.offsets ++ (fetchedBatches replies).flatten.map (fun u => goAdd u.UpdateID 1) ∧
    (replies.foldl Poller.step st).Options.Offset =
      (match (fetchedBatches replies).flatten.getLast? with
        | none => st.Options.Offset
        | some u => goAdd u.UpdateID 1) := by
  induction replies generalizing st with
  | nil => simp [fetchedBatches]
  | cons r rest ih =>
    rw [List.foldl_cons, step_polling st r hph]
    cases hres : r.result with
    | error err =>
      rw [pollingStep_error st r err hres]
      by_cases hc : errorsIsCanceled err = true
      · rw [if_pos hc, foldl_step_returned _ _ rfl]
        simp [fetchedBatches, hres, hc, GetUpdates_fst_Offset]
      · rw [if_neg hc]
        obtain ⟨h1, h2, h3⟩ := ih
          { st with Options := (GetUpdates st.Options r).1,
                    calls := st.calls ++
                      [{ site := CallSite.mainLoop, params := (GetUpdates st.Options r).1 }],
                    log := st.log ++ [LogLine.updaterError err] } hph
        rw [h1, h2, h3]
        simp [fetchedBatches, hres, hc, GetUpdates_fst_Offset]
    | ok updates =>
      rw [pollingStep_ok st r updates hres]
      obtain ⟨h1, h2, h3⟩ := ih (Poller.rangeUpdates
          { st with Options := (GetUpdates st.Options r).1,
                    calls := st.calls ++
                      [{ site := CallSite.mainLoop, params := (GetUpdates st.Options r).1 }] }
          updates) (by rw [rangeUpdates_phase]; exact hph)
      rw [h1, h2, h3, rangeUpdates_launched, rangeUpdates_offsets, rangeUpdates_options]
      simp only [fetchedBatches, hres, List.flatten_cons, List.append_assoc, List.map_append,
        GetUpdates_fst_Offset, List.getLast?_append, true_and]
      cases (fetchedBatches rest).flatten.getLast? with
      | none => simp
      | some w => simp

theorem goAdd_one (x : Int) (hlo : minInt ≤ x) (hhi : x < maxInt) : goAdd x 1 = x + 1 := by
  unfold goAdd wrapInt
  unfold minInt intBits at hlo
  unfold maxInt intBits at hhi
  unfold intBits
  norm_num at hlo hhi ⊢
  omega

theorem step_empty_batch (st : Poller) (reply : RawReply)
    (hres : reply.result = Except.ok []) :
    (Poller.step st reply).Options.Offset = st.Options.Offset := by
  unfold Poller.step
  cases hph : st.phase with
  | priming => simp only [primingStep_ok_nil st reply hres]
  | polling =>
    simp only [pollingStep_ok st reply [] hres, Poller.rangeUpdates, GetUpdates_fst_Offset]
  | returned => rfl

theorem mainLoop_eq (opts : PollingOptions) (replies : List RawReply) :
    (mainLoop opts replies).launched = (fetchedBatches replies).flatten ∧
    (mainLoop opts replies).offsets =
      opts.Offset :: (fetchedBatches replies).flatten.map (fun u => goAdd u.UpdateID 1) ∧
    (mainLoop opts replies).Options.Offset =
      (match (fetchedBatches replies).flatten.getLast? with
        | none => opts.Offset
        | some u => goAdd u.UpdateID 1) := by
  have h := foldl_step_polling replies
    { Options := opts, phase := Phase.polling, calls := [], launched := [], log := [],
      offsets := [opts.Offset] } rfl
  simpa [mainLoop] using h

theorem pairwise_le_getLast (l : List Update) (last : Update)
    (hlast : l.getLast? = some last)
    (hasc : l.Pairwise (fun a b => a.UpdateID ≤ b.UpdateID)) :
    ∀ u ∈ l, u.UpdateID ≤ last.UpdateID := by
  have hl : l = l.dropLast ++ [last] := (List.dropLast_append_getLast? last hlast).symm
  rw [hl] at hasc
  rw [List.pairwise_append] at hasc
  intro u hu
  rw [hl] at hu
  rcases List.mem_append.mp hu with hu | hu
  · exact hasc.2.2 u hu last (List.mem_singleton_self last)
  · rw [List.mem_singleton.mp hu]

/-- C1, counterexample to the claim as worded.  From `Offset = 0` one successful fetch
returns the batch with identifiers 5, 3: afterwards `Options.Offset` is 4, not
`max(5, 3) + 1 = 6`. -/
theorem mainLoop_offset_follows_last_not_max :
    (fetchedBatches [RawReply.body (Except.ok [⟨5, "a"⟩, ⟨3, "b"⟩])]).flatten
      = [⟨5, "a"⟩, ⟨3, "b"⟩] ∧
    (mainLoop PollingOptions.zero
      [RawReply.body (Except.ok [⟨5, "a"⟩, ⟨3, "b"⟩])]).Options.Offset = 4 ∧
    (4 : Int) ≠ max 5 3 + 1 := by
  refine ⟨by decide, ?_, by decide⟩
  rw [(mainLoop_eq _ _).2.2]
  decide

/-- C1, amended.  For every starting `Offset` and every sequence of replies to the loop of
`Start`: while nothing has been fetched `Options.Offset` keeps its starting value; once an
update has been fetched `Options.Offset` is the `UpdateID` of the last update of the last
non-empty batch plus one (in `int` arithmetic); when the identifiers fetched so far are in
ascending order across the batches and below the largest `int`, this is the maximum of all
identifiers seen so far plus one; and a successful fetch that returns an empty batch leaves
`Options.Offset` unchanged. -/
theorem mainLoop_offset (opts : PollingOptions) (replies : List RawReply) :
    ((fetchedBatches replies).flatten = [] →
      (mainLoop opts replies).Options.Offset = opts.Offset) ∧
    (∀ last : Update, (fetchedBatches replies).flatten.getLast? = some last →
      (mainLoop opts replies).Options.Offset = goAdd last.UpdateID 1) ∧
    ((fetchedBatches replies).flatten ≠ [] →
      (fetchedBatches replies).flatten.Pairwise (fun a b => a.UpdateID ≤ b.UpdateID) →
      (∀ u ∈ (fetchedBatches replies).flatten, minInt ≤ u.UpdateID ∧ u.UpdateID < maxInt) →
      (∃ u ∈ (fetchedBatches replies).flatten,
        (mainLoop opts replies).Options.Offset = u.UpdateID + 1) ∧
      (∀ u ∈ (fetchedBatches replies).flatten,
        u.UpdateID + 1 ≤ (mainLoop opts replies).Options.Offset)) ∧
    (∀ reply : RawReply, reply.result = Except.ok [] →
      (mainLoop opts (replies ++ [reply])).Options.Offset
        = (mainLoop opts replies).Options.Offset) := by
  have hoff := (mainLoop_eq opts replies).2.2
  refine ⟨?_, ?_, ?_, ?_⟩
  · intro hnil
    rw [hoff, hnil]
    rfl
  · intro last hlast
    rw [hoff, hlast]
  · intro hne hasc hrange
    have hlast := List.getLast?_eq_getLast _ hne
    have hmem : (fetchedBatches replies).flatten.getLast hne ∈ (fetchedBatches replies).flatten :=
      List.getLast_mem hne
    have hval : (mainLoop opts replies).Options.Offset
        = ((fetchedBatches replies).flatten.getLast hne).UpdateID + 1 := by
      rw [hoff, hlast]
      exact goAdd_one _ (hrange _ hmem).1 (hrange _ hmem).2
    refine ⟨⟨_, hmem, hval⟩, ?_⟩
    intro u hu
    rw [hval]
    have := pairwise_le_getLast _ _ hlast hasc u hu
    omega
  · intro reply hres
    unfold mainLoop
    rw [List.foldl_append]
    exact step_empty_batch _ reply hres

/-- Witness for C1: from `Offset = 7` the batches `[10, 11]`, `[]`, `[12]` (with a failed
fetch in between) leave `Options.Offset` at `12 + 1`, and a further empty batch keeps it. -/
theorem mainLoop_offset_witness :
    (∃ u ∈ (fetchedBatches
        [RawReply.body (Except.ok [⟨10, "a"⟩, ⟨11, "b"⟩]), RawReply.body (Except.ok []),
         RawReply.failed (GoError.leaf "timeout"),
         RawReply.body (Except.ok [⟨12, "c"⟩])]).flatten,
      (mainLoop { PollingOptions.zero with Offset := 7 }
        [RawReply.body (Except.ok [⟨10, "a"⟩, ⟨11, "b"⟩]), RawReply.body (Except.ok []),
         RawReply.failed (GoError.leaf "timeout"),
         RawReply.body (Except.ok [⟨12, "c"⟩])]).Options.Offset = u.UpdateID + 1) ∧
    (mainLoop { PollingOptions.zero with Offset := 7 }
        ([RawReply.body (Except.ok [⟨10, "a"⟩, ⟨11, "b"⟩]), RawReply.body (Except.ok []),
         RawReply.failed (GoError.leaf "timeout"),
         RawReply.body (Except.ok [⟨12, "c"⟩])] ++ [RawReply.body (Except.ok [])])).Options.Offset
      = (mainLoop { PollingOptions.zero with Offset := 7 }
        [RawReply.body (Except.ok [⟨10, "a"⟩, ⟨11, "b"⟩]), RawReply.body (Except.ok []),
         RawReply.failed (GoError.leaf "timeout"),
         RawReply.body (Except.ok [⟨12, "c"⟩])]).Options.Offset :=
  have h := mainLoop_offset { PollingOptions.zero with Offset := 7 }
    [RawReply.body (Except.ok [⟨10, "a"⟩, ⟨11, "b"⟩]), RawReply.body (Except.ok []),
     RawReply.failed (GoError.leaf "timeout"), RawReply.body (Except.ok [⟨12, "c"⟩])]
  ⟨(h.2.2.1 (by decide) (by decide) (by decide)).1, h.2.2.2 (RawReply.body (Except.ok [])) rfl⟩

/-- The options of the caller, `nil` read as the zero value (lines 38-40). -/
theorem init_Offset (updater : PollingUpdater) :
    (Poller.init updater).Options.Offset =
      (match updater.Options with
        | none => PollingOptions.zero
        | some o => o).Offset := by
  unfold Poller.init
  simp only
  split <;> rfl

theorem init_DropPendingUpdates (updater : PollingUpdater) :
    (Poller.init updater).Options.DropPendingUpdates =
      (match updater.Options with
        | none => PollingOptions.zero
        | some o => o).DropPendingUpdates := by
  unfold Poller.init
  simp only
  split <;> rfl

theorem init_phase (updater : PollingUpdater) :
    (Poller.init updater).phase =
      if (Poller.init updater).Options.DropPendingUpdates then Phase.priming
      else Phase.polling := by
  unfold Poller.init
  simp only

theorem init_effects (updater : PollingUpdater) :
    (Poller.init updater).calls = [] ∧ (Poller.init updater).launched = [] ∧
    (Poller.init updater).log = [] ∧
    (Poller.init updater).offsets = [(Poller.init updater).Options.Offset] := by
  unfold Poller.init
  simp

theorem Start_without_priming (updater : PollingUpdater) (replies : List RawReply)
    (hdrop : (Poller.init updater).Options.DropPendingUpdates = false) :
    Start updater replies = mainLoop (Poller.init updater).Options replies := by
  unfold Start mainLoop
  congr 1
  obtain ⟨h1, h2, h3, h4⟩ := init_effects updater
  have h5 := init_phase updater
  rw [hdrop] at h5
  rcases hst : Poller.init updater with ⟨o, ph, c, l, lg, offs⟩
  rw [hst] at h1 h2 h3 h4 h5
  simp only at h1 h2 h3 h4 h5
  simp only [Bool.false_eq_true, if_false] at h5
  subst h1 h2 h3 h4 h5
  rfl

theorem Start_with_priming (updater : PollingUpdater) (reply : RawReply)
    (replies : List RawReply)
    (hdrop : (Poller.init updater).Options.DropPendingUpdates = true) :
    Start updater (reply :: replies) =
      replies.foldl Poller.step (Poller.primingStep (Poller.init updater) reply) := by
  unfold Start
  rw [List.foldl_cons, step_priming]
  rw [init_phase, hdrop]
  rfl

theorem Start_nil (updater : PollingUpdater) : Start updater [] = Poller.init updater := rfl

theorem Start_append (updater : PollingUpdater) (replies more : List RawReply) :
    Start updater (replies ++ more) = more.foldl Poller.step (Start updater replies) := by
  unfold Start
  rw [List.foldl_append]

theorem primingStep_phase (st : Poller) (reply : RawReply) :
    (Poller.primingStep st reply).phase = Phase.polling := by
  cases hres : reply.result with
  | error err => rw [primingStep_error st reply err hres]
  | ok updates =>
    cases updates with
    | nil => rw [primingStep_ok_nil st reply hres]
    | cons u more => rw [primingStep_ok_cons st reply u more hres]

theorem primingStep_launched (st : Poller) (reply : RawReply) :
    (Poller.primingStep st reply).launched = st.launched := by
  cases hres : reply.result with
  | error err => rw [primingStep_error st reply err hres]
  | ok updates =>
    cases updates with
    | nil => rw [primingStep_ok_nil st reply hres]
    | cons u more => rw [primingStep_ok_cons st reply u more hres]

theorem primingStep_calls (st : Poller) (reply : RawReply) :
    (Poller.primingStep st reply).calls =
      st.calls ++ [{ site := CallSite.priming, params := (GetUpdates primingParams reply).1 }] := by
  cases hres : reply.result with
  | error err => rw [primingStep_error st reply err hres]
  | ok updates =>
    cases updates with
    | nil => rw [primingStep_ok_nil st reply hres]
    | cons u more => rw [primingStep_ok_cons st reply u more hres]

theorem primingStep_Timeout (st : Poller) (reply : RawReply) :
    (Poller.primingStep st reply).Options.Timeout = st.Options.Timeout := by
  cases hres : reply.result with
  | error err => rw [primingStep_error st reply err hres]
  | ok updates =>
    cases updates with
    | nil => rw [primingStep_ok_nil st reply hres]
    | cons u more => rw [primingStep_ok_cons st reply u more hres]

/-- C3, counterexample to the claim as worded.  The batch with identifiers 5, 3 is
dispatched in the order 5, 3, which is not ascending. -/
theorem Start_dispatches_in_batch_order :
    (mainLoop PollingOptions.zero
      [RawReply.body (Except.ok [⟨5, "a"⟩, ⟨3, "b"⟩])]).launched = [⟨5, "a"⟩, ⟨3, "b"⟩] ∧
    ¬ List.Pairwise (fun a b : Update => a.UpdateID ≤ b.UpdateID) [⟨5, "a"⟩, ⟨3, "b"⟩] := by
  refine ⟨?_, by decide⟩
  rw [(mainLoop_eq _ _).1]
  decide

/-- C3, amended.  The sequence of `DispatchUpdate` launches made by `Start` equals the
concatenation, in fetch order, of the batches returned by the successful calls of the
loop, each batch in the order in which it lists its updates: every fetched update is
dispatched exactly once, a batch that is in ascending `UpdateID` order is dispatched in
that order, and the result of the priming call is never dispatched. -/
theorem Start_launched (updater : PollingUpdater) (replies : List RawReply) :
    (Start updater replies).launched
      = (fetchedBatches (mainLoopReplies updater replies)).flatten := by
  unfold mainLoopReplies
  cases hdrop : (Poller.init updater).Options.DropPendingUpdates with
  | false =>
    rw [Start_without_priming updater replies hdrop]
    simpa using (mainLoop_eq _ replies).1
  | true =>
    cases replies with
    | nil =>
      rw [Start_nil, (init_effects updater).2.1]
      rfl
    | cons r rest =>
      rw [Start_with_priming updater r rest hdrop]
      rw [(foldl_step_polling rest _ (primingStep_phase _ r)).1, primingStep_launched,
        (init_effects updater).2.1]
      simp

theorem Start_offsets (updater : PollingUpdater) (replies : List RawReply) :
    (Start updater replies).offsets =
      (Poller.init updater).Options.Offset ::
        (offsetSources updater replies).map (fun u => goAdd u.UpdateID 1) := by
  unfold offsetSources
  cases hdrop : (Poller.init updater).Options.DropPendingUpdates with
  | false =>
    rw [Start_without_priming updater replies hdrop]
    simpa using (mainLoop_eq _ replies).2.1
  | true =>
    cases replies with
    | nil =>
      rw [Start_nil, (init_effects updater).2.2.2]
      rfl
    | cons r rest =>
      rw [Start_with_priming updater r rest hdrop]
      rw [(foldl_step_polling rest _ (primingStep_phase _ r)).2.1]
      cases hres : r.result with
      | error err =>
        rw [primingStep_error _ r err hres]
        simp [(init_effects updater).2.2.2, hres]
      | ok updates =>
        cases updates with
        | nil =>
          rw [primingStep_ok_nil _ r hres]
          simp [(init_effects updater).2.2.2, hres]
        | cons u more =>
          rw [primingStep_ok_cons _ r u more hres]
          simp [(init_effects updater).2.2.2, hres]

theorem Start_Offset_last (updater : PollingUpdater) (replies : List RawReply) :
    (Start updater replies).offsets.getLast? = some (Start updater replies).Options.Offset := by
  have key : ∀ (rs : List RawReply) (st : Poller), st.phase = Phase.polling →
      st.offsets.getLast? = some st.Options.Offset →
      (rs.foldl Poller.step st).offsets.getLast?
        = some (rs.foldl Poller.step st).Options.Offset := by
    intro rs st hph hlast
    obtain ⟨_, h2, h3⟩ := foldl_step_polling rs st hph
    rw [h2, h3, List.getLast?_append, List.getLast?_map, hlast]
    cases (fetchedBatches rs).flatten.getLast? with
    | none => rfl
    | some w => rfl
  have hinit : (Poller.init updater).offsets.getLast?
      = some (Poller.init updater).Options.Offset := by
    rw [(init_effects updater).2.2.2]
    rfl
  cases hdrop : (Poller.init updater).Options.DropPendingUpdates with
  | false =>
    unfold Start
    apply key _ _ _ hinit
    rw [init_phase, hdrop]
    rfl
  | true =>
    cases replies with
    | nil => exact hinit
    | cons r rest =>
      rw [Start_with_priming updater r rest hdrop]
      apply key _ _ (primingStep_phase _ r)
      cases hres : r.result with
      | error err => rw [primingStep_error _ r err hres]; exact hinit
      | ok updates =>
        cases updates with
        | nil => rw [primingStep_ok_nil _ r hres]; exact hinit
        | cons u more =>
          rw [primingStep_ok_cons _ r u more hres]
          simp

/-- C2, counterexample to the claim as worded.  With `Offset = 100` configured and
`DropPendingUpdates` set, a priming result carrying identifier 42 takes `Options.Offset`
from 100 down to 43; and in the loop entered with `Offset = 100`, a batch carrying
identifier 5 takes it from 100 down to 6. -/
theorem Start_offset_can_decrease :
    (Start ⟨some { PollingOptions.zero with Offset := 100, DropPendingUpdates := true }⟩
      [RawReply.body (Except.ok [⟨42, "a"⟩])]).offsets = [100, 43] ∧
    (mainLoop { PollingOptions.zero with Offset := 100 }
      [RawReply.body (Except.ok [⟨5, "a"⟩])]).offsets = [100, 6] ∧
    ¬ List.Chain' (fun a b : Int => a ≤ b) [100, 43] ∧
    ¬ List.Chain' (fun a b : Int => a ≤ b) [100, 6] := by
  refine ⟨?_, ?_, by simp, by simp⟩
  · rw [Start_offsets, init_Offset]
    have hdrop : (Poller.init
        ⟨some { PollingOptions.zero with Offset := 100, DropPendingUpdates := true }⟩
        ).Options.DropPendingUpdates = true := by
      rw [init_DropPendingUpdates]
    unfold offsetSources
    rw [hdrop]
    decide
  · rw [(mainLoop_eq _ _).2.1]
    decide

/-- C2, amended.  Over the whole run of `Start` (priming step and loop), for every
configured `Offset` and every sequence of fetch outcomes in which the identifiers that
`Start` stores into `Options.Offset` (that of the first update of a successful priming
result, then those of all updates of all batches fetched by the loop) are in ascending
order, not below the configured `Offset` minus one and below the largest `int`:
`Options.Offset` never decreases, each value it takes being at least every value it had before; the last
value of that history is the current `Options.Offset`. -/
theorem Start_offset_never_decreases (updater : PollingUpdater) (replies : List RawReply)
    (hasc : (offsetSources updater replies).Pairwise (fun a b => a.UpdateID ≤ b.UpdateID))
    (hfrom : ∀ u ∈ offsetSources updater replies,
      (Poller.init updater).Options.Offset ≤ u.UpdateID + 1)
    (hrange : ∀ u ∈ offsetSources updater replies, minInt ≤ u.UpdateID ∧ u.UpdateID < maxInt) :
    List.Chain' (fun a b : Int => a ≤ b) (Start updater replies).offsets ∧
    List.Pairwise (fun a b : Int => a ≤ b) (Start updater replies).offsets ∧
    (Start updater replies).offsets.getLast? = some (Start updater replies).Options.Offset := by
  have hpair : List.Pairwise (fun a b : Int => a ≤ b) (Start updater replies).offsets := by
    rw [Start_offsets, List.pairwise_cons]
    constructor
    · intro x hx
      obtain ⟨u, hu, rfl⟩ := List.mem_map.mp hx
      rw [goAdd_one _ (hrange u hu).1 (hrange u hu).2]
      have := hfrom u hu
      omega
    · rw [List.pairwise_map]
      refine List.Pairwise.imp_of_mem ?_ hasc
      intro a b ha hb hab
      rw [goAdd_one _ (hrange a ha).1 (hrange a ha).2,
        goAdd_one _ (hrange b hb).1 (hrange b hb).2]
      omega
  exact ⟨hpair.chain', hpair, Start_Offset_last updater replies⟩

/-- Witness for C2: configured `Offset = 43`, priming returns identifier 42 (so `Offset`
stays at 43), then the loop fetches `[43, 44]`, fails once, and fetches `[45]`. -/
theorem Start_offset_never_decreases_witness :
    List.Chain' (fun a b : Int => a ≤ b)
      (Start ⟨some { PollingOptions.zero with Offset := 43, DropPendingUpdates := true }⟩
        [RawReply.body (Except.ok [⟨42, "a"⟩]),
         RawReply.body (Except.ok [⟨43, "b"⟩, ⟨44, "c"⟩]),
         RawReply.failed (GoError.leaf "timeout"),
         RawReply.body (Except.ok [⟨45, "d"⟩])]).offsets :=
  have hdrop : (Poller.init
      ⟨some { PollingOptions.zero with Offset := 43, DropPendingUpdates := true }⟩
      ).Options.DropPendingUpdates = true := by rw [init_DropPendingUpdates]
  have hoff : (Poller.init
      ⟨some { PollingOptions.zero with Offset := 43, DropPendingUpdates := true }⟩
      ).Options.Offset = 43 := by rw [init_Offset]
  have hsrc : offsetSources
      ⟨some { PollingOptions.zero with Offset := 43, DropPendingUpdates := true }⟩
      [RawReply.body (Except.ok [⟨42, "a"⟩]),
       RawReply.body (Except.ok [⟨43, "b"⟩, ⟨44, "c"⟩]),
       RawReply.failed (GoError.leaf "timeout"),
       RawReply.body (Except.ok [⟨45, "d"⟩])]
      = [⟨42, "a"⟩, ⟨43, "b"⟩, ⟨44, "c"⟩, ⟨45, "d"⟩] := by
    unfold offsetSources
    rw [hdrop]
    decide
  (Start_offset_never_decreases _ _ (by rw [hsrc]; decide) (by rw [hsrc, hoff]; decide)
    (by rw [hsrc]; decide)).1

/-! ## Calls issued -/

theorem pollingStep_calls (st : Poller) (reply : RawReply) :
    (Poller.pollingStep st reply).calls =
      st.calls ++ [{ site := CallSite.mainLoop, params := (GetUpdates st.Options reply).1 }] := by
  cases hres : reply.result with
  | error err =>
    rw [pollingStep_error st reply err hres]
    split <;> rfl
  | ok updates => rw [pollingStep_ok st reply updates hres, rangeUpdates_calls]

theorem pollingStep_Timeout (st : Poller) (reply : RawReply) :
    (Poller.pollingStep st reply).Options.Timeout = st.Options.Timeout := by
  cases hres : reply.result with
  | error err =>
    rw [pollingStep_error st reply err hres]
    split <;> exact GetUpdates_fst_Timeout _ _
  | ok updates =>
    rw [pollingStep_ok st reply updates hres, rangeUpdates_options]
    exact GetUpdates_fst_Timeout _ _

theorem pollingStep_phase (st : Poller) (reply : RawReply) (hph : st.phase = Phase.polling) :
    (Poller.pollingStep st reply).phase = Phase.polling ∨
    (Poller.pollingStep st reply).phase = Phase.returned := by
  cases hres : reply.result with
  | error err =>
    rw [pollingStep_error st reply err hres]
    split
    · exact Or.inr rfl
    · exact Or.inl hph
  | ok updates =>
    rw [pollingStep_ok st reply updates hres, rangeUpdates_phase]
    exact Or.inl hph

/-- The calls issued by the loop: each at the call site of the loop, carrying the
`Timeout` the loop was entered with and its conversion to seconds; the first of them
carries the options the loop was entered with. -/
theorem foldl_step_polling_calls (replies : List RawReply) (st : Poller)
    (hph : st.phase = Phase.polling) :
    ∃ cs : List Call, (replies.foldl Poller.step st).calls = st.calls ++ cs ∧
      (∀ c ∈ cs, c.site = CallSite.mainLoop ∧ c.params.Timeout = st.Options.Timeout ∧
        c.params.TimeoutRaw = int64OfFloat (Seconds st.Options.Timeout)) ∧
      (∀ (r : RawReply) (rest : List RawReply), replies = r :: rest →
        cs.head? = some { site := CallSite.mainLoop, params := (GetUpdates st.Options r).1 }) := by
  induction replies generalizing st with
  | nil => exact ⟨[], by simp, by simp, by simp⟩
  | cons r rest ih =>
    rw [List.foldl_cons, step_polling st r hph]
    have hc := pollingStep_calls st r
    have ht := pollingStep_Timeout st r
    have hfirst : ∀ c ∈ [Call.mk CallSite.mainLoop (GetUpdates st.Options r).1],
        c.site = CallSite.mainLoop ∧ c.params.Timeout = st.Options.Timeout ∧
        c.params.TimeoutRaw = int64OfFloat (Seconds st.Options.Timeout) := by
      intro c hcmem
      rw [List.mem_singleton.mp hcmem]
      exact ⟨rfl, GetUpdates_fst_Timeout _ _, GetUpdates_fst_TimeoutRaw _ _⟩
    rcases pollingStep_phase st r hph with hp | hp
    · obtain ⟨cs, h1, h2, _⟩ := ih (Poller.pollingStep st r) hp
      refine ⟨{ site := CallSite.mainLoop, params := (GetUpdates st.Options r).1 } :: cs,
        ?_, ?_, ?_⟩
      · rw [h1, hc]
        simp
      · intro c hcmem
        rcases List.mem_cons.mp hcmem with hcm | hcm
        · exact hfirst c (by rw [hcm]; exact List.mem_singleton_self _)
        · rw [← ht]
          exact h2 c hcm
      · intro r' rest' heq
        rw [(List.cons.inj heq).1]
        rfl
    · rw [foldl_step_returned _ _ hp]
      refine ⟨[{ site := CallSite.mainLoop, params := (GetUpdates st.Options r).1 }],
        hc, hfirst, ?_⟩
      intro r' rest' heq
      rw [(List.cons.inj heq).1]
      rfl

theorem roundF64_zero : roundF64 0 = 0 := by
  unfold roundF64
  rw [if_pos rfl]

theorem Seconds_zero : Seconds 0 = 0 := by
  unfold Seconds float64OfInt
  simp [roundF64_zero]

theorem int64OfFloat_zero : int64OfFloat 0 = 0 := by
  unfold int64OfFloat
  simp

theorem GetUpdates_primingParams (reply : RawReply) :
    (GetUpdates primingParams reply).1 = primingParams := by
  rw [GetUpdates_fst]
  have h : primingParams.Timeout = 0 := rfl
  rw [h, Seconds_zero, int64OfFloat_zero]
  rfl

theorem primingStep_Offset (st : Poller) (reply : RawReply) :
    (Poller.primingStep st reply).Options.Offset =
      (match reply.result with
        | Except.ok (lastUpdate :: _) => goAdd lastUpdate.UpdateID 1
        | _ => st.Options.Offset) := by
  cases hres : reply.result with
  | error err => rw [primingStep_error st reply err hres]
  | ok updates =>
    cases updates with
    | nil => rw [primingStep_ok_nil st reply hres]
    | cons u more => rw [primingStep_ok_cons st reply u more hres]

/-- The calls of a run that starts with the priming call. -/
theorem Start_primed_calls (updater : PollingUpdater) (reply : RawReply)
    (replies : List RawReply)
    (hdrop : (Poller.init updater).Options.DropPendingUpdates = true) :
    ∃ cs : List Call,
      (Start updater (reply :: replies)).calls
        = { site := CallSite.priming, params := primingParams } :: cs ∧
      (∀ c ∈ cs, c.site = CallSite.mainLoop) ∧
      (replies ≠ [] → cs ≠ []) ∧
      (∀ c : Call, cs.head? = some c →
        c.params.Offset = (Poller.primingStep (Poller.init updater) reply).Options.Offset) := by
  rw [Start_with_priming updater reply replies hdrop]
  obtain ⟨cs, h1, h2, h3⟩ := foldl_step_polling_calls replies
    (Poller.primingStep (Poller.init updater) reply) (primingStep_phase _ reply)
  refine ⟨cs, ?_, fun c hc => (h2 c hc).1, ?_, ?_⟩
  · rw [h1, primingStep_calls, (init_effects updater).1, GetUpdates_primingParams]
    rfl
  · intro hne
    obtain ⟨r, rest, hrs⟩ := List.exists_cons_of_ne_nil hne
    have := h3 r rest hrs
    intro hcs
    rw [hcs] at this
    exact absurd this (by simp)
  · intro c hc
    cases replies with
    | nil =>
      have hfold : (List.foldl Poller.step (Poller.primingStep (Poller.init updater) reply)
          []).calls = (Poller.primingStep (Poller.init updater) reply).calls := rfl
      rw [hfold] at h1
      have hnil : cs = [] := by
        have := congrArg List.length h1
        rw [List.length_append] at this
        exact List.length_eq_zero.mp (by omega)
      rw [hnil] at hc
      exact absurd hc (by simp)
    | cons r rest =>
      have := h3 r rest rfl
      rw [this] at hc
      rw [← Option.some.inj hc]
      exact GetUpdates_fst_Offset _ _

/-- C4, counterexample to the claim as worded.  `DropPendingUpdates` is set and the priming
call returns two updates with identifiers 3 and 7 (the highest is 7): the first call of the
loop carries `Offset = 4`, not `7 + 1`. -/
theorem Start_priming_takes_first_not_highest :
    (Start ⟨some { PollingOptions.zero with DropPendingUpdates := true }⟩
      [RawReply.body (Except.ok [⟨3, "a"⟩, ⟨7, "b"⟩]), RawReply.body (Except.ok [])]).calls.map
        (fun c => (c.site, c.params.Offset))
      = [(CallSite.priming, -1), (CallSite.mainLoop, 4)] ∧
    (4 : Int) ≠ max 3 7 + 1 := by
  refine ⟨?_, by decide⟩
  have hdrop : (Poller.init
      ⟨some { PollingOptions.zero with DropPendingUpdates := true }⟩
      ).Options.DropPendingUpdates = true := by rw [init_DropPendingUpdates]
  obtain ⟨cs, h1, h2, h3, h4⟩ := Start_primed_calls
    ⟨some { PollingOptions.zero with DropPendingUpdates := true }⟩
    (RawReply.body (Except.ok [⟨3, "a"⟩, ⟨7, "b"⟩])) [RawReply.body (Except.ok [])] hdrop
  have hlen : (Start ⟨some { PollingOptions.zero with DropPendingUpdates := true }⟩
      [RawReply.body (Except.ok [⟨3, "a"⟩, ⟨7, "b"⟩]),
       RawReply.body (Except.ok [])]).calls.length = 2 := by
    rw [Start_with_priming _ _ _ hdrop]
    simp only [List.foldl_cons, List.foldl_nil]
    rw [step_polling _ _ (primingStep_phase _ _), pollingStep_calls, primingStep_calls,
      (init_effects _).1]
    rfl
  rw [h1] at hlen ⊢
  match cs, h2, h4, hlen with
  | [c], h2, h4, _ =>
    have hsite := h2 c (List.mem_singleton_self c)
    have hoff := h4 c rfl
    rw [primingStep_Offset] at hoff
    simp only [List.map_cons, List.map_nil, hsite, hoff]
    rfl

/-- C4, amended.  When `DropPendingUpdates` is set, whatever `Offset` was configured: the
first call `Start` issues is the priming call, with `Offset = -1` and `Limit = 1`; it is
the only priming call, every later call being a call of the loop; and when the priming
call succeeds with a non-empty result, the first call of the loop carries as `Offset` the
`UpdateID` of the first update of that result plus one in `int` arithmetic, which is
`UpdateID + 1` for an identifier below the largest `int` (42 gives 43).  The first update
is the highest of the result when the result holds one update, as `Limit = 1` asks. -/
theorem Start_priming_request (opts : PollingOptions) (reply : RawReply)
    (replies : List RawReply) (hdrop : opts.DropPendingUpdates = true) :
    ∃ cs : List Call,
      (Start ⟨some opts⟩ (reply :: replies)).calls
        = { site := CallSite.priming, params := primingParams } :: cs ∧
      primingParams.Offset = -1 ∧ primingParams.Limit = 1 ∧
      (∀ c ∈ cs, c.site = CallSite.mainLoop) ∧
      (replies ≠ [] → cs ≠ []) ∧
      (∀ (lastUpdate : Update) (more : List Update) (c : Call),
        reply.result = Except.ok (lastUpdate :: more) → cs.head? = some c →
        c.params.Offset = goAdd lastUpdate.UpdateID 1 ∧
        (minInt ≤ lastUpdate.UpdateID → lastUpdate.UpdateID < maxInt →
          c.params.Offset = lastUpdate.UpdateID + 1)) := by
  have hd : (Poller.init ⟨some opts⟩).Options.DropPendingUpdates = true := by
    rw [init_DropPendingUpdates]
    exact hdrop
  obtain ⟨cs, h1, h2, h3, h4⟩ := Start_primed_calls ⟨some opts⟩ reply replies hd
  refine ⟨cs, h1, rfl, rfl, h2, h3, ?_⟩
  intro lastUpdate more c hres hc
  have hoff := h4 c hc
  rw [primingStep_Offset, hres] at hoff
  simp only at hoff
  refine ⟨hoff, ?_⟩
  intro hlo hhi
  rw [hoff, goAdd_one _ hlo hhi]

/-- Witness for C4: `Offset = 7` configured, the priming call returns identifier 42, and
the first call of the loop carries `Offset = 43`. -/
theorem Start_priming_request_witness :
    ∃ cs : List Call,
      (Start ⟨some { PollingOptions.zero with Offset := 7, DropPendingUpdates := true }⟩
        (RawReply.body (Except.ok [⟨42, "a"⟩]) :: [RawReply.body (Except.ok [])])).calls
        = { site := CallSite.priming, params := primingParams } :: cs ∧
      cs ≠ [] ∧ ∀ c : Call, cs.head? = some c → c.params.Offset = 42 + 1 :=
  have ⟨cs, h1, _, _, _, h3, h4⟩ := Start_priming_request
    { PollingOptions.zero with Offset := 7, DropPendingUpdates := true }
    (RawReply.body (Except.ok [⟨42, "a"⟩])) [RawReply.body (Except.ok [])] rfl
  ⟨cs, h1, h3 (by simp), fun c hc => (h4 ⟨42, "a"⟩ [] c rfl hc).2 (by decide) (by decide)⟩

theorem step_failure (st : Poller) (reply : RawReply) (err : GoError)
    (hrun : st.phase ≠ Phase.returned)
    (hres : reply.result = Except.error err) (hnc : errorsIsCanceled err = false) :
    (Poller.step st reply).Options.Offset = st.Options.Offset ∧
    (Poller.step st reply).launched = st.launched ∧
    (Poller.step st reply).log = st.log ++ [LogLine.updaterError err] ∧
    (Poller.step st reply).offsets = st.offsets ∧
    (Poller.step st reply).phase = Phase.polling ∧
    ∃ c : Call, (Poller.step st reply).calls = st.calls ++ [c] := by
  cases hph : st.phase with
  | returned => exact absurd hph hrun
  | priming =>
    rw [step_priming st reply hph, primingStep_error st reply err hres]
    exact ⟨rfl, rfl, rfl, rfl, rfl, _, rfl⟩
  | polling =>
    rw [step_polling st reply hph, pollingStep_error st reply err hres,
      if_neg (by rw [hnc]; decide)]
    exact ⟨GetUpdates_fst_Offset _ _, rfl, rfl, rfl, hph, _, rfl⟩

theorem step_polling_call (st : Poller) (reply : RawReply) (hph : st.phase = Phase.polling) :
    ∃ c : Call, (Poller.step st reply).calls = st.calls ++ [c] ∧
      c.site = CallSite.mainLoop ∧ c.params.Offset = st.Options.Offset := by
  rw [step_polling st reply hph, pollingStep_calls]
  exact ⟨_, rfl, rfl, GetUpdates_fst_Offset _ _⟩

/-- C6.  Whenever a `GetUpdates` call of `Start`, the priming call or a call of the loop,
fails with an error that is not a cancellation: `Options.Offset` is unchanged by it,
nothing is dispatched, exactly one line (the updater error) is logged, `Start` has not
returned but stands at the head of the loop, and the next call it issues is a call of the
loop carrying the same `Offset`. -/
theorem Start_failure_is_logged_and_retried (updater : PollingUpdater)
    (replies : List RawReply) (reply next : RawReply) (err : GoError)
    (hrun : (Start updater replies).phase ≠ Phase.returned)
    (hres : reply.result = Except.error err) (hnc : errorsIsCanceled err = false) :
    (Start updater (replies ++ [reply])).Options.Offset = (Start updater replies).Options.Offset ∧
    (Start updater (replies ++ [reply])).offsets = (Start updater replies).offsets ∧
    (Start updater (replies ++ [reply])).launched = (Start updater replies).launched ∧
    (Start updater (replies ++ [reply])).log
      = (Start updater replies).log ++ [LogLine.updaterError err] ∧
    (∃ failed : Call, (Start updater (replies ++ [reply])).calls
      = (Start updater replies).calls ++ [failed]) ∧
    (Start updater (replies ++ [reply])).phase = Phase.polling ∧
    (∃ retry : Call, (Start updater (replies ++ [reply] ++ [next])).calls
        = (Start updater (replies ++ [reply])).calls ++ [retry] ∧
      retry.site = CallSite.mainLoop ∧
      retry.params.Offset = (Start updater replies).Options.Offset) := by
  have hstep : Start updater (replies ++ [reply])
      = Poller.step (Start updater replies) reply := by
    rw [Start_append]
    rfl
  have hnext : Start updater (replies ++ [reply] ++ [next])
      = Poller.step (Start updater (replies ++ [reply])) next := by
    rw [Start_append]
    rfl
  obtain ⟨h1, h2, h3, h4, h5, h6⟩ := step_failure (Start updater replies) reply err hrun hres hnc
  rw [← hstep] at h1 h2 h3 h4 h5 h6
  refine ⟨h1, h4, h2, h3, h6, h5, ?_⟩
  obtain ⟨c, hc1, hc2, hc3⟩ := step_polling_call (Start updater (replies ++ [reply])) next h5
  rw [← hnext] at hc1
  exact ⟨c, hc1, hc2, hc3.trans h1⟩

/-- Witness for C6: with `DropPendingUpdates` set the priming call fails on a network
error, and after a batch a call of the loop fails too; both are logged and retried. -/
theorem Start_failure_is_logged_and_retried_witness :
    (Start ⟨some { PollingOptions.zero with Offset := 7, DropPendingUpdates := true }⟩
        ([] ++ [RawReply.failed (GoError.leaf "network")])).log
      = (Start ⟨some { PollingOptions.zero with Offset := 7, DropPendingUpdates := true }⟩
          []).log ++ [LogLine.updaterError (GoError.leaf "network")] ∧
    (Start ⟨none⟩ ([RawReply.body (Except.ok [⟨3, "a"⟩])]
        ++ [RawReply.body (Except.error (GoError.leaf "bad json"))])).phase = Phase.polling :=
  ⟨(Start_failure_is_logged_and_retried
      ⟨some { PollingOptions.zero with Offset := 7, DropPendingUpdates := true }⟩ []
      (RawReply.failed (GoError.leaf "network")) (RawReply.body (Except.ok []))
      (GoError.leaf "network")
      (by rw [Start_nil, init_phase, init_DropPendingUpdates]; decide) rfl rfl).2.2.2.1,
   (Start_failure_is_logged_and_retried ⟨none⟩ [RawReply.body (Except.ok [⟨3, "a"⟩])]
      (RawReply.body (Except.error (GoError.leaf "bad json"))) (RawReply.body (Except.ok []))
      (GoError.leaf "bad json")
      (by
        have hdrop : (Poller.init ⟨none⟩).Options.DropPendingUpdates = false := by
          rw [init_DropPendingUpdates]; rfl
        have hph : (Poller.init ⟨none⟩).phase = Phase.polling := by
          rw [init_phase, hdrop]; rfl
        unfold Start
        rw [List.foldl_cons, List.foldl_nil, step_polling _ _ hph,
          pollingStep_ok _ (RawReply.body (Except.ok [⟨3, "a"⟩])) [⟨3, "a"⟩] rfl,
          rangeUpdates_phase]
        simp [hph])
      rfl rfl).2.2.2.2.2.1⟩

/-- When a call of the loop fails with an error that is `context.Canceled`, `Start` logs
`"bot manually stopped"` and returns: nothing is dispatched for that call, and whatever
would be replied afterwards no further call is issued and nothing changes. -/
theorem Start_loop_cancellation_returns (updater : PollingUpdater)
    (replies later : List RawReply) (reply : RawReply) (err : GoError)
    (hloop : (Start updater replies).phase = Phase.polling)
    (hres : reply.result = Except.error err) (hc : errorsIsCanceled err = true) :
    (Start updater (replies ++ [reply])).phase = Phase.returned ∧
    (Start updater (replies ++ [reply])).launched = (Start updater replies).launched ∧
    (Start updater (replies ++ [reply])).log
      = (Start updater replies).log ++ [LogLine.manuallyStopped] ∧
    (∃ c : Call, (Start updater (replies ++ [reply])).calls
      = (Start updater replies).calls ++ [c]) ∧
    Start updater (replies ++ [reply] ++ later) = Start updater (replies ++ [reply]) := by
  have hstep : Start updater (replies ++ [reply])
      = Poller.step (Start updater replies) reply := by
    rw [Start_append]
    rfl
  have hval : Poller.step (Start updater replies) reply =
      { Start updater replies with
        Options := (GetUpdates (Start updater replies).Options reply).1,
        calls := (Start updater replies).calls ++
          [{ site := CallSite.mainLoop,
             params := (GetUpdates (Start updater replies).Options reply).1 }],
        log := (Start updater replies).log ++ [LogLine.manuallyStopped],
        phase := Phase.returned } := by
    rw [step_polling _ _ hloop, pollingStep_error _ _ err hres, if_pos hc]
  rw [← hstep] at hval
  refine ⟨?_, ?_, ?_, ?_, ?_⟩
  · rw [hval]
  · rw [hval]
  · rw [hval]
  · exact ⟨_, by rw [hval]⟩
  · rw [Start_append updater (replies ++ [reply]) later]
    exact foldl_step_returned _ _ (by rw [hval])

/-- C5, the code at the failing input.  `DropPendingUpdates` is set and the priming call
fails with `context.Canceled` (the context stays cancelled, so the next call fails in the
same way): `Start` logs the cancellation as an updater error and issues a second
`GetUpdates` call, from the loop, before it returns. -/
theorem Start_cancelled_priming_is_retried :
    (Start ⟨some { PollingOptions.zero with DropPendingUpdates := true }⟩
      [RawReply.failed GoError.contextCanceled]).phase = Phase.polling ∧
    (Start ⟨some { PollingOptions.zero with DropPendingUpdates := true }⟩
      [RawReply.failed GoError.contextCanceled]).log
        = [LogLine.updaterError GoError.contextCanceled] ∧
    (Start ⟨some { PollingOptions.zero with DropPendingUpdates := true }⟩
      [RawReply.failed GoError.contextCanceled,
       RawReply.failed GoError.contextCanceled]).calls.map (fun c => c.site)
        = [CallSite.priming, CallSite.mainLoop] ∧
    (Start ⟨some { PollingOptions.zero with DropPendingUpdates := true }⟩
      [RawReply.failed GoError.contextCanceled,
       RawReply.failed GoError.contextCanceled]).log
        = [LogLine.updaterError GoError.contextCanceled, LogLine.manuallyStopped] ∧
    (Start ⟨some { PollingOptions.zero with DropPendingUpdates := true }⟩
      [RawReply.failed GoError.contextCanceled,
       RawReply.failed GoError.contextCanceled]).phase = Phase.returned := by
  have hdrop : (Poller.init
      ⟨some { PollingOptions.zero with DropPendingUpdates := true }⟩
      ).Options.DropPendingUpdates = true := by rw [init_DropPendingUpdates]
  have hone : Start ⟨some { PollingOptions.zero with DropPendingUpdates := true }⟩
      [RawReply.failed GoError.contextCanceled]
      = Poller.primingStep
          (Poller.init ⟨some { PollingOptions.zero with DropPendingUpdates := true }⟩)
          (RawReply.failed GoError.contextCanceled) :=
    Start_with_priming _ _ [] hdrop
  have htwo : Start ⟨some { PollingOptions.zero with DropPendingUpdates := true }⟩
      [RawReply.failed GoError.contextCanceled, RawReply.failed GoError.contextCanceled]
      = Poller.pollingStep (Poller.primingStep
          (Poller.init ⟨some { PollingOptions.zero with DropPendingUpdates := true }⟩)
          (RawReply.failed GoError.contextCanceled))
          (RawReply.failed GoError.contextCanceled) := by
    rw [Start_with_priming _ _ _ hdrop, List.foldl_cons, List.foldl_nil,
      step_polling _ _ (primingStep_phase _ _)]
  rw [htwo, hone,
    pollingStep_error _ (RawReply.failed GoError.contextCanceled) GoError.contextCanceled rfl,
    primingStep_error _ (RawReply.failed GoError.contextCanceled) GoError.contextCanceled rfl]
  simp [errorsIsCanceled, (init_effects _).1, (init_effects _).2.2.1]

/-! ## Durations in `float64` seconds -/

theorem roundHalfEven_intCast (n : Int) : roundHalfEven (n : ℚ) = n := by
  unfold roundHalfEven
  simp

/-- A value that is a whole multiple of the unit in the last place of its own binade is a
`float64` and rounds to itself. -/
theorem roundF64_of_scaled (q : ℚ) (n : Int)
    (hn : q / (2 : ℚ) ^ (Int.log 2 |q| - 52) = (n : ℚ)) : roundF64 q = q := by
  unfold roundF64
  by_cases hq : q = 0
  · rw [if_pos hq, hq]
  · rw [if_neg hq]
    simp only
    rw [hn, roundHalfEven_intCast, ← hn]
    have hpos : (2 : ℚ) ^ (Int.log 2 |q| - 52) ≠ 0 := by positivity
    field_simp

theorem roundF64_intCast (k : Int) (hk : |k| < 2 ^ 53) : roundF64 (k : ℚ) = k := by
  by_cases h0 : k = 0
  · rw [h0]
    exact roundF64_zero
  · have hlog : Int.log 2 |(k : ℚ)| = (Nat.log 2 k.natAbs : ℤ) := by
      rw [← Int.cast_abs, Int.abs_eq_natAbs, Int.cast_natCast, Int.log_natCast]
    have hle : Nat.log 2 k.natAbs ≤ 52 := by
      have hlt : k.natAbs < 2 ^ 53 := by
        have := Int.abs_eq_natAbs k
        omega
      have := Nat.log_lt_of_lt_pow (Int.natAbs_ne_zero.mpr h0) hlt
      omega
    apply roundF64_of_scaled (k : ℚ) (k * 2 ^ (52 - Nat.log 2 k.natAbs))
    rw [hlog]
    have hexp : ((Nat.log 2 k.natAbs : ℤ) - 52) = -((52 - Nat.log 2 k.natAbs : ℕ) : ℤ) := by
      omega
    rw [hexp, zpow_neg, zpow_natCast, div_inv_eq_mul]
    push_cast
    rfl

theorem float64OfInt_exact (k : Int) (hk : |k| < 2 ^ 53) : float64OfInt k = k :=
  roundF64_intCast k hk

theorem int64OfFloat_intCast (k : Int) : int64OfFloat (k : ℚ) = k := by
  unfold int64OfFloat
  split <;> simp

theorem abs_lt_of_isInt64 (k : Int) (h : -(2 ^ 63) ≤ k * Second ∧ k * Second < 2 ^ 63) :
    |k| < 2 ^ 53 := by
  unfold Second at h
  rw [abs_lt]
  constructor <;> omega

theorem Seconds_whole (k : Int) (h : -(2 ^ 63) ≤ k * Second ∧ k * Second < 2 ^ 63) :
    Seconds (k * Second) = k := by
  have hk := abs_lt_of_isInt64 k h
  have hS : Second ≠ 0 := by unfold Second; decide
  unfold Seconds
  simp only
  rw [Int.mul_tdiv_cancel _ hS, Int.mul_tmod_left]
  rw [float64OfInt_exact k hk, float64OfInt_exact 0 (by norm_num)]
  simp only [Int.cast_zero, zero_div, roundF64_zero, add_zero]
  exact roundF64_intCast k hk

theorem roundHalfEven_nonneg (t : ℚ) (ht : 0 ≤ t) : 0 ≤ roundHalfEven t := by
  have hf : 0 ≤ ⌊t⌋ := Int.floor_nonneg.mpr ht
  unfold roundHalfEven
  simp only
  split
  · exact hf
  · split
    · omega
    · split <;> omega

theorem roundHalfEven_nonpos (t : ℚ) (ht : t ≤ 0) : roundHalfEven t ≤ 0 := by
  unfold roundHalfEven
  simp only
  rcases eq_or_lt_of_le ht with h0 | hneg
  · rw [h0]
    simp
  · have hf : ⌊t⌋ < 0 := Int.floor_lt.mpr (by exact_mod_cast hneg)
    split
    · omega
    · split
      · omega
      · split <;> omega

theorem roundHalfEven_ne_zero (t : ℚ) (ht : 1 ≤ |t|) : roundHalfEven t ≠ 0 := by
  rcases le_abs.mp ht with hpos | hneg
  · have hf : 1 ≤ ⌊t⌋ := Int.le_floor.mpr (by exact_mod_cast hpos)
    unfold roundHalfEven
    simp only
    split
    · omega
    · split
      · omega
      · split <;> omega
  · have hle : t ≤ -1 := by linarith
    have hf : ⌊t⌋ ≤ -1 := by
      have h1 : ⌊t⌋ < 0 := Int.floor_lt.mpr (by push_cast; linarith)
      omega
    unfold roundHalfEven
    simp only
    split
    · omega
    · rename_i hr
      have hfl : ⌊t⌋ ≠ -1 := by
        intro heq
        apply hr
        rw [heq]
        push_cast
        linarith
      split
      · omega
      · split <;> omega

theorem ulp_pos (q : ℚ) : (0 : ℚ) < (2 : ℚ) ^ (Int.log 2 |q| - 52) := by positivity

theorem roundF64_ne_zero (q : ℚ) (hq : q ≠ 0) : roundF64 q ≠ 0 := by
  unfold roundF64
  rw [if_neg hq]
  simp only
  have hulp := ulp_pos q
  apply mul_ne_zero _ (ne_of_gt hulp)
  have habs : (0 : ℚ) < |q| := abs_pos.mpr hq
  have hlog : ((2 : ℕ) : ℚ) ^ Int.log 2 |q| ≤ |q| := Int.zpow_log_le_self (by norm_num) habs
  have hone : 1 ≤ |q / (2 : ℚ) ^ (Int.log 2 |q| - 52)| := by
    rw [abs_div, abs_of_pos hulp, le_div_iff₀ hulp, one_mul]
    refine le_trans ?_ hlog
    push_cast
    apply zpow_le_zpow_right₀ (by norm_num)
    omega
  exact_mod_cast roundHalfEven_ne_zero _ hone

theorem roundF64_nonneg (q : ℚ) (hq : 0 ≤ q) : 0 ≤ roundF64 q := by
  unfold roundF64
  split
  · exact le_refl 0
  · simp only
    apply mul_nonneg _ (le_of_lt (ulp_pos q))
    exact_mod_cast roundHalfEven_nonneg _ (div_nonneg hq (le_of_lt (ulp_pos q)))

theorem roundF64_nonpos (q : ℚ) (hq : q ≤ 0) : roundF64 q ≤ 0 := by
  unfold roundF64
  split
  · exact le_refl 0
  · simp only
    apply mul_nonpos_of_nonpos_of_nonneg _ (le_of_lt (ulp_pos q))
    exact_mod_cast roundHalfEven_nonpos _ (div_nonpos_of_nonpos_of_nonneg hq (le_of_lt (ulp_pos q)))

/-- Quotient and remainder of a duration by `Second`, with the signs Go gives them. -/
theorem tdiv_tmod_Second (d : Int) :
    d = d.tdiv Second * Second + d.tmod Second ∧
    (0 ≤ d → 0 ≤ d.tdiv Second ∧ 0 ≤ d.tmod Second ∧ d.tmod Second < Second) ∧
    (d ≤ 0 → d.tdiv Second ≤ 0 ∧ d.tmod Second ≤ 0 ∧ -Second < d.tmod Second) := by
  have hS : (0 : Int) ≤ Second := by unfold Second; decide
  have hsum := Int.tdiv_add_tmod d Second
  refine ⟨by rw [mul_comm]; exact hsum.symm, ?_, ?_⟩
  · intro hd
    rw [Int.tdiv_eq_ediv hd hS, Int.tmod_eq_emod hd hS]
    unfold Second
    omega
  · intro hd
    have hneg : (0 : Int) ≤ -d := by omega
    have hq : d.tdiv Second = -((-d) / Second) := by
      have := Int.neg_tdiv (-d) Second
      rw [neg_neg] at this
      rw [this, Int.tdiv_eq_ediv hneg hS]
    have hr : d.tmod Second = d - Second * d.tdiv Second := by omega
    rw [hr, hq]
    unfold Second
    omega

theorem Seconds_eq_zero_iff (d : Int) (hd : -(2 ^ 63) ≤ d ∧ d < 2 ^ 63) :
    Seconds d = 0 ↔ d = 0 := by
  constructor
  · intro hz
    by_contra hne
    obtain ⟨hsum, hpos, hneg⟩ := tdiv_tmod_Second d
    unfold Seconds at hz
    simp only at hz
    generalize d.tdiv Second = s at hsum hpos hneg hz
    generalize d.tmod Second = n at hsum hpos hneg hz
    unfold Second at hsum hpos hneg
    have hsec : |s| < 2 ^ 53 := by
      rw [abs_lt]
      rcases le_total 0 d with h | h
      · have := hpos h
        constructor <;> omega
      · have := hneg h
        constructor <;> omega
    have hnsec : |n| < 2 ^ 53 := by
      rw [abs_lt]
      rcases le_total 0 d with h | h
      · have := hpos h
        constructor <;> omega
      · have := hneg h
        constructor <;> omega
    rw [float64OfInt_exact _ hsec, float64OfInt_exact _ hnsec] at hz
    apply roundF64_ne_zero _ _ hz
    rcases lt_or_gt_of_ne hne with hlt | hgt
    · obtain ⟨h1, h2, h3⟩ := hneg (le_of_lt hlt)
      have hf : roundF64 ((n : ℚ) / 1000000000) ≤ 0 :=
        roundF64_nonpos _ (div_nonpos_of_nonpos_of_nonneg (by exact_mod_cast h2) (by norm_num))
      rcases eq_or_lt_of_le h1 with hs0 | hs0
      · have hn0 : n ≠ 0 := by omega
        have hf0 : roundF64 ((n : ℚ) / 1000000000) ≠ 0 :=
          roundF64_ne_zero _ (div_ne_zero (by exact_mod_cast hn0) (by norm_num))
        rw [hs0]
        simpa using hf0
      · have hs1 : (s : ℚ) < 0 := by exact_mod_cast hs0
        linarith
    · obtain ⟨h1, h2, h3⟩ := hpos (le_of_lt hgt)
      have hf : 0 ≤ roundF64 ((n : ℚ) / 1000000000) :=
        roundF64_nonneg _ (div_nonneg (by exact_mod_cast h2) (by norm_num))
      rcases eq_or_lt_of_le h1 with hs0 | hs0
      · have hn0 : n ≠ 0 := by omega
        have hf0 : roundF64 ((n : ℚ) / 1000000000) ≠ 0 :=
          roundF64_ne_zero _ (div_ne_zero (by exact_mod_cast hn0) (by norm_num))
        rw [← hs0]
        simpa using hf0
      · have hs1 : (0 : ℚ) < (s : ℚ) := by exact_mod_cast hs0
        linarith
  · intro h0
    rw [h0]
    exact Seconds_zero

theorem init_Timeout (updater : PollingUpdater) (hrange : IsInt64 (configuredTimeout updater)) :
    (Poller.init updater).Options.Timeout =
      if configuredTimeout updater = 0 then 10 * Second else configuredTimeout updater := by
  have hcfg : configuredTimeout updater =
      (match updater.Options with
        | none => PollingOptions.zero
        | some o => o).Timeout := by
    unfold configuredTimeout
    cases updater.Options <;> rfl
  rw [hcfg] at hrange ⊢
  have hiff := Seconds_eq_zero_iff _ hrange
  unfold Poller.init
  simp only
  by_cases h0 : (match updater.Options with
        | none => PollingOptions.zero
        | some o => o).Timeout = 0
  · rw [if_pos (hiff.mpr h0), if_pos h0]
  · rw [if_neg (fun h => h0 (hiff.mp h)), if_neg h0]

/-- Every call of the loop carries the `Timeout` fixed at the start of `Start` and its
conversion `int64(Timeout.Seconds())`. -/
theorem Start_loop_calls_Timeout (updater : PollingUpdater) (replies : List RawReply) :
    ∀ c ∈ (Start updater replies).calls, c.site = CallSite.mainLoop →
      c.params.Timeout = (Poller.init updater).Options.Timeout ∧
      c.params.TimeoutRaw = int64OfFloat (Seconds (Poller.init updater).Options.Timeout) := by
  intro c hc hsite
  cases hdrop : (Poller.init updater).Options.DropPendingUpdates with
  | false =>
    have hph : (Poller.init updater).phase = Phase.polling := by
      rw [init_phase, hdrop]
      rfl
    obtain ⟨cs, h1, h2, _⟩ := foldl_step_polling_calls replies (Poller.init updater) hph
    unfold Start at hc
    rw [h1, (init_effects updater).1, List.nil_append] at hc
    exact (h2 c hc).2
  | true =>
    cases replies with
    | nil =>
      rw [Start_nil, (init_effects updater).1] at hc
      exact absurd hc (List.not_mem_nil c)
    | cons r rest =>
      rw [Start_with_priming updater r rest hdrop] at hc
      obtain ⟨cs, h1, h2, _⟩ := foldl_step_polling_calls rest
        (Poller.primingStep (Poller.init updater) r) (primingStep_phase _ r)
      rw [h1, primingStep_calls, (init_effects updater).1, List.nil_append] at hc
      rcases List.mem_append.mp hc with hc | hc
      · rw [List.mem_singleton.mp hc] at hsite
        exact absurd hsite (fun h => CallSite.noConfusion h)
      · rw [← primingStep_Timeout (Poller.init updater) r]
        exact (h2 c hc).2

theorem roundF64_half : roundF64 (1 / 2) = 1 / 2 := by
  have hlog : Int.log 2 |(1 / 2 : ℚ)| = -1 := by
    have h : |(1 / 2 : ℚ)| = ((2 : ℕ) : ℚ) ^ (-1 : ℤ) := by
      rw [abs_of_pos (by norm_num)]
      norm_num
    rw [h, Int.log_zpow (by norm_num)]
  apply roundF64_of_scaled (1 / 2) (2 ^ 52)
  rw [hlog]
  norm_num

theorem Seconds_half : Seconds 500000000 = 1 / 2 := by
  unfold Seconds
  have hq : Int.tdiv 500000000 Second = 0 := by decide
  have hr : Int.tmod 500000000 Second = 500000000 := by decide
  simp only
  rw [hq, hr, float64OfInt_exact 0 (by norm_num), float64OfInt_exact 500000000 (by norm_num)]
  have hdiv : (((500000000 : Int) : ℚ) / 1000000000) = 1 / 2 := by norm_num
  rw [hdiv, roundF64_half]
  norm_num
  exact roundF64_half

theorem int64OfFloat_half : int64OfFloat (1 / 2) = 0 := by
  unfold int64OfFloat
  rw [if_pos (by norm_num)]
  rw [Int.floor_eq_iff]
  norm_num

/-- The single call issued by `Start` for a single reply when no priming is asked. -/
theorem Start_single_call (updater : PollingUpdater) (reply : RawReply)
    (hdrop : (Poller.init updater).Options.DropPendingUpdates = false) :
    (Start updater [reply]).calls =
      [{ site := CallSite.mainLoop,
         params := { (Poller.init updater).Options with
           TimeoutRaw := int64OfFloat (Seconds (Poller.init updater).Options.Timeout) } }] := by
  have hph : (Poller.init updater).phase = Phase.polling := by
    rw [init_phase, hdrop]
    rfl
  unfold Start
  rw [List.foldl_cons, List.foldl_nil, step_polling _ _ hph, pollingStep_calls,
    (init_effects _).1, GetUpdates_fst]
  rfl

/-- C10, counterexample to the claim as worded.  With `Timeout` configured as half a
second (500000000 ns) the call of the loop carries `Timeout = 500000000` and
`TimeoutRaw = 0`: zero seconds is not half a second. -/
theorem Start_subsecond_timeout_sent_as_zero :
    (Start ⟨some { PollingOptions.zero with Timeout := 500000000 }⟩
      [RawReply.body (Except.ok [])]).calls.map
        (fun c => (c.site, c.params.Timeout, c.params.TimeoutRaw))
      = [(CallSite.mainLoop, 500000000, 0)] ∧
    (0 : Int) * Second ≠ 500000000 := by
  refine ⟨?_, by decide⟩
  have hT : (Poller.init ⟨some { PollingOptions.zero with Timeout := 500000000 }⟩).Options.Timeout
      = 500000000 := by
    rw [init_Timeout _ (by unfold IsInt64 configuredTimeout; decide)]
    rfl
  rw [Start_single_call _ _ (by rw [init_DropPendingUpdates]; rfl)]
  simp only [List.map_cons, List.map_nil, hT, Seconds_half, int64OfFloat_half]

/-- C10, amended.  For every configured `Timeout` (an `int64` count of nanoseconds), every
call of the loop carries `Options.Timeout`, which is 10 seconds when it was unset
(`Options` nil or `Timeout` zero) and the configured duration otherwise, together with
`TimeoutRaw = int64(Timeout.Seconds())`; and `TimeoutRaw` seconds equal `Options.Timeout`
exactly when `Options.Timeout` is a whole number of seconds. -/
theorem Start_request_timeout (updater : PollingUpdater) (replies : List RawReply) (c : Call)
    (hrange : IsInt64 (configuredTimeout updater))
    (hc : c ∈ (Start updater replies).calls) (hsite : c.site = CallSite.mainLoop) :
    c.params.Timeout =
      (if configuredTimeout updater = 0 then 10 * Second else configuredTimeout updater) ∧
    c.params.TimeoutRaw = int64OfFloat (Seconds c.params.Timeout) ∧
    (c.params.TimeoutRaw * Second = c.params.Timeout ↔ Second ∣ c.params.Timeout) := by
  obtain ⟨h1, h2⟩ := Start_loop_calls_Timeout updater replies c hc hsite
  have hT := init_Timeout updater hrange
  rw [← h1] at h2
  rw [hT] at h1
  refine ⟨h1, h2, ?_⟩
  constructor
  · intro h
    exact ⟨c.params.TimeoutRaw, by rw [← h, mul_comm]⟩
  · rintro ⟨k, hk⟩
    have hk' : c.params.Timeout = k * Second := by rw [hk, mul_comm]
    have hr : -(2 ^ 63) ≤ k * Second ∧ k * Second < 2 ^ 63 := by
      rw [← hk', h1]
      unfold IsInt64 at hrange
      split
      · unfold Second
        decide
      · exact hrange
    rw [h2, hk', Seconds_whole k hr, int64OfFloat_intCast]

/-- Witness for C10: with `Options` nil the call of the loop carries `Timeout` 10 seconds
and `TimeoutRaw = 10`. -/
theorem Start_request_timeout_witness :
    Call.mk CallSite.mainLoop
        { PollingOptions.zero with Timeout := 10 * Second, TimeoutRaw := 10 }
      ∈ (Start ⟨none⟩ [RawReply.body (Except.ok [])]).calls ∧
    (10 : Int) * Second = 10 * Second :=
  have hT : (Poller.init ⟨none⟩).Options.Timeout = 10 * Second := by
    rw [init_Timeout _ (by unfold IsInt64 configuredTimeout; decide)]
    rfl
  have hO : (Poller.init ⟨none⟩).Options
      = { PollingOptions.zero with Timeout := 10 * Second } := by
    unfold Poller.init
    simp only
    rw [if_pos (show Seconds PollingOptions.zero.Timeout = 0 from Seconds_zero)]
  have hmem : Call.mk CallSite.mainLoop
        { PollingOptions.zero with Timeout := 10 * Second, TimeoutRaw := 10 }
      ∈ (Start ⟨none⟩ [RawReply.body (Except.ok [])]).calls := by
    rw [Start_single_call _ _ (by rw [init_DropPendingUpdates]; rfl), hT,
      Seconds_whole 10 (by unfold Second; decide), int64OfFloat_intCast, hO]
    exact List.mem_singleton_self _
  ⟨hmem, ((Start_request_timeout ⟨none⟩ [RawReply.body (Except.ok [])] _
    (by unfold IsInt64 configuredTimeout; decide) hmem rfl).2.2).mpr ⟨10, by ring⟩⟩

end Aquagram
